import Mathlib

/-!
Shallow embedding of `src/trajectory.cpp` (EP_Spiral_Transfers).

Modelling conventions:
* C++ `double` values are modelled as rationals (`ℚ`).  The claims treated
  here are structural (which update happens first, which divisions are
  guarded, loop guards, sample bookkeeping) and do not depend on rounding.
* `std::sqrt` is modelled by `Rat.sqrt`, which is exact on perfect squares;
  no claim below depends on the value of the square root beyond
  perfect-square inputs.
* The C++ `throw std::runtime_error("Vector division by zero!")` in
  `operator/` is modelled by `Except VecError`, and the exception
  propagates out of the loop as an `Except.error` result.
* The unbounded `while` loop is modelled with explicit fuel:
  `loopE p fuel s = none` means the loop did not terminate within `fuel`
  iterations; `some` carries the normal result or the propagated error.
* The compile-time constants of `main` (lines 40-52) are gathered in a
  `Params` record so that claims quantifying over configurations can be
  stated; `params0` holds the literals of the source.
-/

namespace EPSpiral

/-- Model of `Vec2 = std::array<double, 2>`: a pair of rationals. -/
abbrev Vec2 : Type := ℚ × ℚ

/-- The single error of the program: `operator/` throwing on a zero scalar
(`trajectory.cpp` line 21). -/
inductive VecError : Type
  | divisionByZero : VecError
deriving DecidableEq

/-- Model of `operator+(const Vec2&, const Vec2&)` (line 9): componentwise sum. -/
def vadd (a b : Vec2) : Vec2 := (a.1 + b.1, a.2 + b.2)

/-- Model of `operator-(const Vec2&, const Vec2&)` (line 14): componentwise difference. -/
def vsub (a b : Vec2) : Vec2 := (a.1 - b.1, a.2 - b.2)

/-- Model of `operator/(const Vec2&, double)` (lines 19-24): componentwise division by a
scalar, throwing on `k == 0.0`. -/
def vdiv (v : Vec2) (k : ℚ) : Except VecError Vec2 :=
  if k = 0 then .error .divisionByZero else .ok (v.1 / k, v.2 / k)

/-- Model of `operator*(double, const Vec2&)` (line 27): scalar on the left. -/
def smulL (k : ℚ) (v : Vec2) : Vec2 := (k * v.1, k * v.2)

/-- Model of `operator*(const Vec2&, double)` (line 32): scalar on the right. -/
def smulR (v : Vec2) (k : ℚ) : Vec2 := (v.1 * k, v.2 * k)

/-- Model of `norm` (lines 36-38): Euclidean magnitude `sqrt(r[0]*r[0] + r[1]*r[1])`. -/
def norm (r : Vec2) : ℚ := Rat.sqrt (r.1 * r.1 + r.2 * r.2)

/-- The constants of `main` (lines 40-52), gathered as a configuration record.
Field names follow the source variables. -/
structure Params : Type where
  mu : ℚ
  r_earth : ℚ
  r_mars : ℚ
  T : ℚ
  Isp : ℚ
  m0 : ℚ
  g : ℚ
  dt : ℚ
deriving DecidableEq

/-- Model of `mdot = T / (Isp * g)` (line 48): propellant mass flow rate, derived once. -/
def mdot (p : Params) : ℚ := p.T / (p.Isp * p.g)

/-- The concrete constants hard-coded in `main`:
`mu = 1.327e11`, `r_earth = 1.496e8`, `r_mars = 1.52 * r_earth`,
`T = 450e-6`, `Isp = 9000`, `m0 = 10000`, `g = 9.81e-3`, `dt = 50.0`. -/
def params0 : Params :=
  { mu := 1.327e11
    r_earth := 1.496e8
    r_mars := 1.52 * 1.496e8
    T := 450e-6
    Isp := 9000
    m0 := 10000
    g := 9.81e-3
    dt := 50.0 }

/-- The mutable loop state of `main`: position `r`, velocity `v`, mass `m`,
elapsed time `t`, and the recorded sample lists `x`, `y` (lines 50-57). -/
structure State : Type where
  r : Vec2
  v : Vec2
  m : ℚ
  t : ℚ
  xs : List ℚ
  ys : List ℚ
deriving DecidableEq

/-- The initial state of `main` (lines 50-57): `m = m0`, `t = 0`,
`r = (r_earth, 0)`, `v = (0, sqrt(mu / r_earth))`, `x = {r[0]}`, `y = {r[1]}`. -/
def init (p : Params) : State :=
  { r := (p.r_earth, 0)
    v := (0, Rat.sqrt (p.mu / p.r_earth))
    m := p.m0
    t := 0
    xs := [p.r_earth]
    ys := [0] }

/-- Model of `a_grav = (-mu / std::pow(norm(r), 3)) * r` (line 61), using the
left-scalar multiplication. -/
def aGrav (p : Params) (s : State) : Vec2 :=
  smulL (-p.mu / (norm s.r) ^ 3) s.r

/-- One iteration of the loop body (lines 59-80): thrust acceleration
`(T / m) * (v / norm(v))`, total acceleration, then `v`, `r`, `m`, `t` updates
and the two `push_back` calls.  The thrown division-by-zero propagates as
`Except.error`. -/
def stepE (p : Params) (s : State) : Except VecError State :=
  match vdiv s.v (norm s.v) with
  | .error e => .error e
  | .ok u =>
    let a_thrust : Vec2 := smulL (p.T / s.m) u
    let a : Vec2 := vadd (aGrav p s) a_thrust
    let v1 : Vec2 := vadd s.v (smulR a p.dt)
    let r1 : Vec2 := vadd s.r (smulR v1 p.dt)
    .ok { r := r1
          v := v1
          m := s.m - mdot p * p.dt
          t := s.t + p.dt
          xs := s.xs ++ [r1.1]
          ys := s.ys ++ [r1.2] }

/-- Model of the loop `while (norm(r) < r_mars)` over lines 59-80, with explicit fuel:
`none` means the loop did not terminate within `fuel` iterations. The guard
is evaluated before each iteration, the first included. -/
def loopE (p : Params) : ℕ → State → Option (Except VecError State)
  | 0, s => if norm s.r < p.r_mars then none else some (.ok s)
  | fuel + 1, s =>
    if norm s.r < p.r_mars then
      match stepE p s with
      | .ok s1 => loopE p fuel s1
      | .error e => some (.error e)
    else some (.ok s)

/-- Iterating the loop body `n` times, ignoring the guard (used to
state per-iteration invariants). -/
def stepN (p : Params) : ℕ → State → Except VecError State
  | 0, s => .ok s
  | n + 1, s =>
    match stepE p s with
    | .ok s1 => stepN p n s1
    | .error e => .error e

/-- The reported boolean `norm(r) >= r_mars` (line 83). -/
def reached (p : Params) (s : State) : Bool := decide (norm s.r ≥ p.r_mars)

/-- Modelled from the spec: classic explicit Euler, in which the position
update uses the OLD velocity (`r ← r + v_old * dt`).  This is NOT the source
algorithm; it is stated only to be compared against `stepE`. -/
def classicEulerStep (p : Params) (s : State) : Except VecError State :=
  match vdiv s.v (norm s.v) with
  | .error e => .error e
  | .ok u =>
    let a_thrust : Vec2 := smulL (p.T / s.m) u
    let a : Vec2 := vadd (aGrav p s) a_thrust
    let v1 : Vec2 := vadd s.v (smulR a p.dt)
    let r1 : Vec2 := vadd s.r (smulR s.v p.dt)
    .ok { r := r1
          v := v1
          m := s.m - mdot p * p.dt
          t := s.t + p.dt
          xs := s.xs ++ [r1.1]
          ys := s.ys ++ [r1.2] }

/-- A small configuration used for concrete evaluations: every parameter 1,
so `mdot = 1` and the initial state is `r = (1, 0)`, `v = (0, 1)`, `m = 1`. -/
def pW : Params :=
  { mu := 1, r_earth := 1, r_mars := 1, T := 1, Isp := 1, m0 := 1, g := 1, dt := 1 }

/-! ### Helper lemmas (shared; not claim theorems) -/

lemma sqrtQ_zero : Rat.sqrt (0 : ℚ) = 0 := by simp

lemma sqrtQ_one : Rat.sqrt (1 : ℚ) = 1 := by simp

lemma init_pW : init pW = ⟨(1, 0), (0, 1), 1, 0, [1], [0]⟩ := by
  simp [init, pW, sqrtQ_one]

lemma norm_10 : norm ((1 : ℚ), (0 : ℚ)) = 1 := by simp [norm, sqrtQ_one]

lemma norm_01 : norm ((0 : ℚ), (1 : ℚ)) = 1 := by simp [norm, sqrtQ_one]

lemma stepE_pW_init :
    stepE pW ⟨(1, 0), (0, 1), 1, 0, [1], [0]⟩ =
      .ok ⟨(0, 2), (-1, 2), 0, 1, [1, 0], [0, 2]⟩ := by
  simp [stepE, vdiv, norm, aGrav, smulL, smulR, vadd, mdot, pW, sqrtQ_one]
  norm_num [sqrtQ_one]

lemma vdiv_of_ne (v : Vec2) {k : ℚ} (h : k ≠ 0) : vdiv v k = .ok (v.1 / k, v.2 / k) := by
  simp [vdiv, h]

lemma stepE_cases (p : Params) (s : State) (s' : State) (h : stepE p s = .ok s') :
    ∃ u, vdiv s.v (norm s.v) = .ok u ∧
      s' = { r := vadd s.r (smulR (vadd s.v (smulR (vadd (aGrav p s) (smulL (p.T / s.m) u)) p.dt)) p.dt)
             v := vadd s.v (smulR (vadd (aGrav p s) (smulL (p.T / s.m) u)) p.dt)
             m := s.m - mdot p * p.dt
             t := s.t + p.dt
             xs := s.xs ++ [(vadd s.r (smulR (vadd s.v (smulR (vadd (aGrav p s) (smulL (p.T / s.m) u)) p.dt)) p.dt)).1]
             ys := s.ys ++ [(vadd s.r (smulR (vadd s.v (smulR (vadd (aGrav p s) (smulL (p.T / s.m) u)) p.dt)) p.dt)).2] } := by
  unfold stepE at h
  cases hv : vdiv s.v (norm s.v) with
  | error e => rw [hv] at h; simp at h
  | ok u =>
    rw [hv] at h
    simp only [Except.ok.injEq] at h
    exact ⟨u, rfl, h.symm⟩

lemma stepE_m (p : Params) (s : State) (s' : State) (h : stepE p s = .ok s') :
    s'.m = s.m - mdot p * p.dt := by
  obtain ⟨u, _, rfl⟩ := stepE_cases p s s' h
  rfl

lemma stepE_t (p : Params) (s : State) (s' : State) (h : stepE p s = .ok s') :
    s'.t = s.t + p.dt := by
  obtain ⟨u, _, rfl⟩ := stepE_cases p s s' h
  rfl

lemma stepE_len (p : Params) (s : State) (s' : State) (h : stepE p s = .ok s') :
    s'.xs.length = s.xs.length + 1 ∧ s'.ys.length = s.ys.length + 1 := by
  obtain ⟨u, _, rfl⟩ := stepE_cases p s s' h
  constructor <;> simp

/-- The state after one loop iteration from `init pW`. -/
def sW1 : State := ⟨(0, 2), (-1, 2), 0, 1, [1, 0], [0, 2]⟩

lemma classicEuler_pW_init :
    classicEulerStep pW ⟨(1, 0), (0, 1), 1, 0, [1], [0]⟩ =
      .ok ⟨(1, 1), (-1, 2), 0, 1, [1, 1], [0, 1]⟩ := by
  simp [classicEulerStep, vdiv, norm, aGrav, smulL, smulR, vadd, mdot, pW, sqrtQ_one]
  norm_num [sqrtQ_one]

/-! ### Claim theorems -/

/-- Claim C1: each iteration updates the velocity first, using the
acceleration computed at the old state, and then updates the position using
the NEW velocity (semi-implicit Euler); the step differs from classic
explicit Euler (both updates from the old state) on a concrete state. -/
theorem semi_implicit_euler (p : Params) (s s' : State) (h : stepE p s = .ok s') :
    (∃ u, vdiv s.v (norm s.v) = .ok u ∧
      s'.v = vadd s.v (smulR (vadd (aGrav p s) (smulL (p.T / s.m) u)) p.dt) ∧
      s'.r = vadd s.r (smulR s'.v p.dt)) ∧
    stepE pW (init pW) ≠ classicEulerStep pW (init pW) := by
  constructor
  · obtain ⟨u, hu, rfl⟩ := stepE_cases p s s' h
    exact ⟨u, hu, rfl, rfl⟩
  · rw [init_pW, stepE_pW_init, classicEuler_pW_init]
    intro hc
    simp only [Except.ok.injEq, State.mk.injEq, Prod.mk.injEq] at hc
    norm_num at hc

/-- Witness for C1: the semi-implicit shape at the concrete first step of the
`pW` run. -/
theorem semi_implicit_euler_witness :
    (∃ u, vdiv (init pW).v (norm (init pW).v) = .ok u ∧
      sW1.v = vadd (init pW).v
        (smulR (vadd (aGrav pW (init pW)) (smulL (pW.T / (init pW).m) u)) pW.dt) ∧
      sW1.r = vadd (init pW).r (smulR sW1.v pW.dt)) ∧
    stepE pW (init pW) ≠ classicEulerStep pW (init pW) :=
  semi_implicit_euler pW (init pW) sW1 (by rw [init_pW]; exact stepE_pW_init)

/-- Claim C5: each iteration performs `m ← m - mdot * dt` with no floor or
clamp (so with positive thrust, Isp, g0 and dt the mass strictly decreases),
and a step can drive the mass negative. -/
theorem mass_decreasing_no_floor :
    (∀ p s s', stepE p s = .ok s' → s'.m = s.m - mdot p * p.dt) ∧
    (∀ p s s', 0 < p.T → 0 < p.Isp → 0 < p.g → 0 < p.dt →
      stepE p s = .ok s' → s'.m < s.m) ∧
    (∃ s', stepE pW ⟨(1, 0), (0, 1), 1 / 2, 0, [1], [0]⟩ = .ok s' ∧ s'.m < 0) := by
  refine ⟨fun p s s' h => stepE_m p s s' h, fun p s s' hT hI hg hdt h => ?_, ?_⟩
  · rw [stepE_m p s s' h]
    have hpos : 0 < mdot p * p.dt :=
      mul_pos (div_pos hT (mul_pos hI hg)) hdt
    linarith
  · refine ⟨⟨(0, 3), (-1, 3), -(1 / 2), 1, [1, 0], [0, 3]⟩, ?_, by norm_num⟩
    simp [stepE, vdiv, norm, aGrav, smulL, smulR, vadd, mdot, pW, sqrtQ_one]
    norm_num [sqrtQ_one]

/-- Witness for C5: on the concrete `pW` run the mass strictly decreases
across the first step. -/
theorem mass_decreasing_no_floor_witness : sW1.m < (init pW).m :=
  mass_decreasing_no_floor.2.1 pW (init pW) sW1
    (by norm_num [pW]) (by norm_num [pW]) (by norm_num [pW]) (by norm_num [pW])
    (by rw [init_pW]; exact stepE_pW_init)

/-- Claim C9: the only guarded division of the loop body is the
velocity-normalizing vector division `v / norm(v)`: an iteration raises
`DivisionByZero` exactly when `norm(v) = 0`, while the gravitational scalar
`-mu / norm(r)^3` is computed with the unguarded scalar division, so at
`r = (0, 0)` the step silently succeeds (in the rational model the unguarded
division by zero yields the junk value `0`; in the C++ doubles it yields an
infinite/NaN acceleration) instead of raising an error. -/
theorem grav_division_unguarded :
    (∀ p s, norm s.v = 0 → stepE p s = .error .divisionByZero) ∧
    (∀ p s, norm s.v ≠ 0 → ∃ s', stepE p s = .ok s') ∧
    (∃ s', stepE pW ⟨(0, 0), (0, 1), 1, 0, [0], [0]⟩ = .ok s') := by
  refine ⟨fun p s h => ?_, fun p s h => ?_, ?_⟩
  · unfold stepE
    rw [h]
    simp [vdiv]
  · unfold stepE
    rw [vdiv_of_ne s.v h]
    exact ⟨_, rfl⟩
  · refine ⟨⟨(0, 2), (0, 2), 0, 1, [0, 0], [0, 2]⟩, ?_⟩
    simp [stepE, vdiv, norm, aGrav, smulL, smulR, vadd, mdot, pW, sqrtQ_one, sqrtQ_zero]
    norm_num [sqrtQ_one, sqrtQ_zero]

/-- Witness for C9: a zero velocity raises `DivisionByZero`; the initial
`pW` state (nonzero velocity) steps without error. -/
theorem grav_division_unguarded_witness :
    stepE pW ⟨(1, 0), (0, 0), 1, 0, [1], [0]⟩ = .error .divisionByZero ∧
    (∃ s', stepE pW (init pW) = .ok s') :=
  ⟨grav_division_unguarded.1 pW ⟨(1, 0), (0, 0), 1, 0, [1], [0]⟩ (by simp [norm]),
   grav_division_unguarded.2.1 pW (init pW) (by rw [init_pW]; simp [norm_01])⟩

/-- Claim C2: the loop continues exactly while `norm(r) < r_mars` (guard
checked before every iteration, the first included), and whenever it
terminates normally the final radius is at least the target and the reported
"reached" boolean is true. -/
theorem loop_guard_termination (p : Params) :
    (∀ fuel s, ¬ norm s.r < p.r_mars → loopE p fuel s = some (.ok s)) ∧
    (∀ fuel s, norm s.r < p.r_mars →
      loopE p (fuel + 1) s =
        match stepE p s with
        | .ok s1 => loopE p fuel s1
        | .error e => some (.error e)) ∧
    (∀ fuel s0 s, loopE p fuel s0 = some (.ok s) →
      p.r_mars ≤ norm s.r ∧ reached p s = true) := by
  refine ⟨?_, ?_, ?_⟩
  · intro fuel s h
    cases fuel <;> simp [loopE, h]
  · intro fuel s h
    simp [loopE, h]
  · intro fuel
    induction fuel with
    | zero =>
      intro s0 s h
      unfold loopE at h
      by_cases hg : norm s0.r < p.r_mars
      · simp [hg] at h
      · rw [if_neg hg] at h
        simp only [Option.some.injEq, Except.ok.injEq] at h
        subst h
        exact ⟨not_lt.mp hg, by simp [reached, not_lt.mp hg]⟩
    | succ n ih =>
      intro s0 s h
      unfold loopE at h
      by_cases hg : norm s0.r < p.r_mars
      · rw [if_pos hg] at h
        cases hs : stepE p s0 with
        | ok s1 =>
          rw [hs] at h
          exact ih s1 s h
        | error e =>
          rw [hs] at h
          simp at h
      · rw [if_neg hg] at h
        simp only [Option.some.injEq, Except.ok.injEq] at h
        subst h
        exact ⟨not_lt.mp hg, by simp [reached, not_lt.mp hg]⟩

/-- Witness for C2: the `pW` run terminates normally at fuel `0` and the
postcondition holds there. -/
theorem loop_guard_termination_witness :
    pW.r_mars ≤ norm (init pW).r ∧ reached pW (init pW) = true :=
  (loop_guard_termination pW).2.2 0 (init pW) (init pW)
    (by rw [init_pW]; simp [loopE, norm_10, pW])

/-- Counterexample to C6: with `r_mars = r_earth` (target equal to the
initial radius) the loop terminates immediately, after zero iterations; it
does not run forever. -/
theorem loop_runs_forever_cex :
    pW.r_mars ≤ pW.r_earth ∧
    loopE pW 0 (init pW) = some (.ok (init pW)) ∧
    ¬ (∀ fuel, loopE pW fuel (init pW) = none) := by
  have h2 : loopE pW 0 (init pW) = some (.ok (init pW)) := by
    rw [init_pW]
    simp [loopE, norm_10, pW]
  exact ⟨by norm_num [pW], h2, fun hall => by simp [hall 0] at h2⟩

/-- Claim C6 (amended): if `r_mars <= r_earth` (and the initial radius is
nonnegative), the guard is false at the initial state, so the loop performs
zero iterations and terminates immediately, for every fuel bound. -/
theorem loop_immediate_of_target_le (p : Params) (h0 : 0 ≤ p.r_earth)
    (h : p.r_mars ≤ p.r_earth) (fuel : ℕ) :
    loopE p fuel (init p) = some (.ok (init p)) := by
  have hn : norm (init p).r = p.r_earth := by
    show Rat.sqrt (p.r_earth * p.r_earth + 0 * 0) = p.r_earth
    rw [mul_zero, add_zero, Rat.sqrt_eq]
    exact abs_of_nonneg h0
  have hg : ¬ norm (init p).r < p.r_mars := by
    rw [hn]
    exact not_lt.mpr h
  cases fuel <;> simp [loopE, hg]

/-- Witness for the amended C6 at the concrete equal-radius configuration. -/
theorem loop_immediate_of_target_le_witness :
    loopE pW 2 (init pW) = some (.ok (init pW)) :=
  loop_immediate_of_target_le pW (by norm_num [pW]) (by norm_num [pW]) 2

lemma stepN_mass (p : Params) (n : ℕ) :
    ∀ s0 s, stepN p n s0 = .ok s → s.m = s0.m - (n : ℚ) * mdot p * p.dt := by
  induction n with
  | zero =>
    intro s0 s h
    unfold stepN at h
    simp only [Except.ok.injEq] at h
    subst h
    simp
  | succ n ih =>
    intro s0 s h
    unfold stepN at h
    cases hs : stepE p s0 with
    | ok s1 =>
      rw [hs] at h
      have h1 := ih s1 s h
      rw [h1, stepE_m p s0 s1 hs]
      push_cast
      ring
    | error e =>
      rw [hs] at h
      simp at h

lemma stepN_shape (p : Params) (n : ℕ) :
    ∀ s0 s, stepN p n s0 = .ok s →
      s.xs.length = s0.xs.length + n ∧ s.ys.length = s0.ys.length + n ∧
      s.t = s0.t + (n : ℚ) * p.dt := by
  induction n with
  | zero =>
    intro s0 s h
    unfold stepN at h
    simp only [Except.ok.injEq] at h
    subst h
    simp
  | succ n ih =>
    intro s0 s h
    unfold stepN at h
    cases hs : stepE p s0 with
    | ok s1 =>
      rw [hs] at h
      obtain ⟨h1, h2, h3⟩ := ih s1 s h
      obtain ⟨hx, hy⟩ := stepE_len p s0 s1 hs
      refine ⟨?_, ?_, ?_⟩
      · rw [h1, hx]; ring
      · rw [h2, hy]; ring
      · rw [h3, stepE_t p s0 s1 hs]
        push_cast
        ring
    | error e =>
      rw [hs] at h
      simp at h

lemma loopE_to_stepN (p : Params) (fuel : ℕ) :
    ∀ s0 s, loopE p fuel s0 = some (.ok s) → ∃ n, stepN p n s0 = .ok s := by
  induction fuel with
  | zero =>
    intro s0 s h
    unfold loopE at h
    by_cases hg : norm s0.r < p.r_mars
    · simp [hg] at h
    · rw [if_neg hg] at h
      simp only [Option.some.injEq, Except.ok.injEq] at h
      exact ⟨0, by rw [h]; rfl⟩
  | succ n ih =>
    intro s0 s h
    unfold loopE at h
    by_cases hg : norm s0.r < p.r_mars
    · rw [if_pos hg] at h
      cases hs : stepE p s0 with
      | ok s1 =>
        rw [hs] at h
        obtain ⟨k, hk⟩ := ih s1 s h
        refine ⟨k + 1, ?_⟩
        unfold stepN
        rw [hs]
        exact hk
      | error e =>
        rw [hs] at h
        simp at h
    · rw [if_neg hg] at h
      simp only [Option.some.injEq, Except.ok.injEq] at h
      exact ⟨0, by rw [h]; rfl⟩

/-- Claim C7: `mdot` is derived exactly once at initialization as
`T / (Isp * g)`, is strictly positive when thrust, Isp and g0 are, and is
held constant for the run: after `n` iterations the mass is exactly
`m0 - n * mdot * dt`. -/
theorem massFlowRate_spec :
    (∀ p, mdot p = p.T / (p.Isp * p.g)) ∧
    (∀ p, 0 < p.T → 0 < p.Isp → 0 < p.g → 0 < mdot p) ∧
    (∀ p n s, stepN p n (init p) = .ok s → s.m = p.m0 - (n : ℚ) * mdot p * p.dt) := by
  refine ⟨fun p => rfl, fun p hT hI hg => div_pos hT (mul_pos hI hg), fun p n s h => ?_⟩
  have h1 := stepN_mass p n (init p) s h
  simpa [init] using h1

/-- Witness for C7: on the `pW` run, `mdot = 1 > 0`, and after one iteration
the mass is `m0 - 1 * mdot * dt`. -/
theorem massFlowRate_spec_witness :
    0 < mdot pW ∧ sW1.m = pW.m0 - (1 : ℚ) * mdot pW * pW.dt :=
  ⟨massFlowRate_spec.2.1 pW (by norm_num [pW]) (by norm_num [pW]) (by norm_num [pW]),
   massFlowRate_spec.2.2 pW 1 sW1
     (by unfold stepN; rw [init_pW, stepE_pW_init]; rfl)⟩

/-- Claim C10: each iteration appends exactly the new position to the sample
lists, so after `n` completed iterations both sample lists have length
`n + 1` and the elapsed time is `n * dt`; hence at normal loop termination
the sample count and the elapsed time determine each other via
`t = (count - 1) * dt`. -/
theorem samples_time_invariant (p : Params) :
    (∀ s s', stepE p s = .ok s' →
      s'.xs = s.xs ++ [s'.r.1] ∧ s'.ys = s.ys ++ [s'.r.2]) ∧
    (∀ n s, stepN p n (init p) = .ok s →
      s.xs.length = n + 1 ∧ s.ys.length = n + 1 ∧ s.t = (n : ℚ) * p.dt) ∧
    (∀ fuel s, loopE p fuel (init p) = some (.ok s) →
      s.xs.length = s.ys.length ∧ s.t = ((s.xs.length - 1 : ℕ) : ℚ) * p.dt) := by
  refine ⟨fun s s' h => ?_, fun n s h => ?_, fun fuel s h => ?_⟩
  · obtain ⟨u, hu, rfl⟩ := stepE_cases p s s' h
    exact ⟨rfl, rfl⟩
  · obtain ⟨h1, h2, h3⟩ := stepN_shape p n (init p) s h
    simp only [init, List.length_singleton] at h1 h2 h3
    refine ⟨by omega, by omega, by rw [h3]; simp⟩
  · obtain ⟨n, hn⟩ := loopE_to_stepN p fuel (init p) s h
    obtain ⟨h1, h2, h3⟩ := stepN_shape p n (init p) s hn
    simp only [init, List.length_singleton] at h1 h2 h3
    constructor
    · omega
    · have hx : (s.xs.length - 1 : ℕ) = n := by omega
      rw [hx, h3]
      simp

/-- Witness for C10: after one iteration of the `pW` run both sample lists
have length `2` and the elapsed time is `1 * dt`. -/
theorem samples_time_invariant_witness :
    sW1.xs.length = 1 + 1 ∧ sW1.ys.length = 1 + 1 ∧ sW1.t = (1 : ℚ) * pW.dt :=
  (samples_time_invariant pW).2.1 1 sW1
    (by unfold stepN; rw [init_pW, stepE_pW_init]; rfl)

/-- Claim C3: vector division by a scalar fails with `DivisionByZero` exactly
when the scalar is zero, regardless of the vector; for a nonzero scalar it
returns the componentwise quotient, so a zero divisor never silently flows
into the components. -/
theorem vdiv_divisionByZero_iff (v : Vec2) (k : ℚ) :
    (vdiv v k = .error .divisionByZero ↔ k = 0) ∧
    (k ≠ 0 → vdiv v k = .ok (v.1 / k, v.2 / k)) := by
  constructor
  · unfold vdiv
    split <;> simp_all
  · intro h
    simp [vdiv, h]

/-- Witness for C3 at `v = (3, 4)`: division by `0` errors, division by `2`
returns the componentwise quotient. -/
theorem vdiv_divisionByZero_iff_witness :
    vdiv ((3 : ℚ), (4 : ℚ)) 0 = .error .divisionByZero ∧
    vdiv ((3 : ℚ), (4 : ℚ)) 2 = .ok (3 / 2, 4 / 2) :=
  ⟨(vdiv_divisionByZero_iff (3, 4) 0).1.mpr rfl,
   (vdiv_divisionByZero_iff (3, 4) 2).2 (by norm_num)⟩

/-- Claim C4: the initial state is the circular orbit at the initial radius:
position `(r_earth, 0)`, velocity `(0, sqrt(mu / r_earth))`, mass `m0`,
elapsed time `0`, and the samples hold exactly the starting position. -/
theorem init_spec (p : Params) :
    (init p).r = (p.r_earth, 0) ∧
    (init p).v = (0, Rat.sqrt (p.mu / p.r_earth)) ∧
    (init p).m = p.m0 ∧
    (init p).t = 0 ∧
    (init p).xs = [(init p).r.1] ∧
    (init p).ys = [(init p).r.2] :=
  ⟨rfl, rfl, rfl, rfl, rfl, rfl⟩

/-- Claim C8: scalar multiplication is total and commutative: the scalar may
appear on either side with the same componentwise result `(k*v0, k*v1)`. -/
theorem smul_comm_total (k : ℚ) (v : Vec2) :
    smulL k v = smulR v k ∧ smulL k v = (k * v.1, k * v.2) := by
  constructor
  · simp [smulL, smulR, mul_comm]
  · rfl

end EPSpiral
